import Mathlib

set_option autoImplicit false

/-!
Shallow embedding of src/src/libDirectoryService/MicroBlockProcessing.cpp:
DirectoryService::VerifyMicroblockCoSignature (lines 41-85) and
DirectoryService::ProcessMicroblockSubmission (lines 88-201), in the
non-lookup-node configuration.  Collaborators that the file calls but whose
sources are not in the repository sample (ConsensusCommon::NumForConsensus,
CheckState, CheckWhetherDSBlockIsFresh, IsMessageSizeInappropriate,
RunConsensusOnFinalBlock, the MicroBlock comparator of the std set, and the
crypto primitives) are modelled from the specification and marked as such in
their doc comments.
-/

namespace Zilliqa

/-- Committee member public key, abstracted to a natural number. -/
abbrev PubKey := Nat

/-- Network peer descriptor, abstracted to a natural number. -/
abbrev Peer := Nat

/-- Aggregate signature value, abstracted to a natural number. -/
abbrev Sig := Nat

/-- Raw byte strings abstracted as lists of naturals. -/
abbrev Bytes := List Nat

/-- The fields of a MicroBlock that MicroBlockProcessing.cpp reads:
the header signature bitmap, the miner public key from the header, the
header signature, the serialization of the block (the message the
collective signature is checked against), and the header timestamp. -/
structure MicroBlock where
  headerSigBitmap : List Bool
  minerPubKey : PubKey
  headerSig : Sig
  serialized : Bytes
  timestamp : Nat
deriving DecidableEq, Inhabited

/-- Modelled from the spec: ConsensusCommon::NumForConsensus is outside the
repository sample; the spec (section 4.2 step 3) defines the BFT threshold
for size n as floor(2n/3) + 1. -/
def NumForConsensus (n : Nat) : Nat := 2 * n / 3 + 1

/-- One shard committee: the std map from public key to peer, embedded as
the list of key-peer pairs in iteration order. -/
abbrev ShardRoster := List (PubKey × Peer)

/-- Distinct exits of VerifyMicroblockCoSignature.  The source returns a
plain bool; each constructor tags one return-false site (or the
bounds-checked lookup failures that the source surfaces as exceptions from
std at calls). -/
inductive VerifyOutcome where
  | ok
  | shardOutOfRange
  | bitmapOutOfRange (i : Nat)
  | insufficientSigners
  | aggregationFailed
  | signatureInvalid
deriving DecidableEq, Inhabited

/-- The signer-selection loop of VerifyMicroblockCoSignature (lines 47-60):
walks the shard roster with a running index, reads the bitmap at that index
with a bounds-checked lookup (collectiveSigBitmap.at in the source), and
accumulates the keys at true positions together with their count.  An
out-of-range lookup aborts the loop carrying the failing index. -/
def selectKeysAux (shard : ShardRoster) (bitmap : List Bool) (index : Nat)
    (keys : List PubKey) (count : Nat) : Except Nat (List PubKey × Nat) :=
  match shard with
  | [] => .ok (keys, count)
  | kv :: rest =>
    match bitmap.get? index with
    | none => .error index
    | some b =>
      if b then selectKeysAux rest bitmap (index + 1) (keys ++ [kv.1]) (count + 1)
      else selectKeysAux rest bitmap (index + 1) keys count

/-- Signer selection started at index zero with empty accumulators. -/
def selectKeys (shard : ShardRoster) (bitmap : List Bool) :
    Except Nat (List PubKey × Nat) :=
  selectKeysAux shard bitmap 0 [] 0

/-- The external crypto capabilities (MultiSig::AggregatePubKeys and
Schnorr verification), outside the repository sample, taken as parameters:
aggregation may fail (nullptr in the source) and verification yields a
bool. -/
structure CryptoOracle where
  aggregatePubKeys : List PubKey → Option PubKey
  schnorrVerify : Bytes → Sig → PubKey → Bool

/-- DirectoryService::VerifyMicroblockCoSignature (lines 41-85): look up
the shard roster (m_shards.at, bounds-checked), run the signer-selection
loop, require the selected count to equal NumForConsensus of the bitmap
length (line 62), aggregate the selected keys, and check the collective
signature on the serialized block. -/
def VerifyMicroblockCoSignature (C : CryptoOracle) (shards : List ShardRoster)
    (microBlock : MicroBlock) (shardId : Nat) : VerifyOutcome :=
  match shards.get? shardId with
  | none => .shardOutOfRange
  | some shard =>
    match selectKeys shard microBlock.headerSigBitmap with
    | .error i => .bitmapOutOfRange i
    | .ok (keys, count) =>
      if count ≠ NumForConsensus microBlock.headerSigBitmap.length then
        .insufficientSigners
      else
        match C.aggregatePubKeys keys with
        | none => .aggregationFailed
        | some aggKey =>
          if C.schnorrVerify microBlock.serialized microBlock.headerSig aggKey then .ok
          else .signatureInvalid

/-- Modelled from the spec: the protocol phases of EpochProtocolState
(section 4.3); the DirectoryService state enum is outside the repository
sample.  awaitingSubmissions plays the role of MICROBLOCK_SUBMISSION. -/
inductive Phase where
  | awaitingSubmissions
  | submissionsComplete
  | consensusInProgress
  | roundFinalized
deriving DecidableEq, Inhabited

/-- Distinct exits of ProcessMicroblockSubmission.  The source returns a
plain bool; each constructor tags one return-false site, in source order. -/
inductive ProcessOutcome where
  | success
  | wrongPhase
  | tooShort
  | staleRound
  | roundMismatch
  | unknownProducer
  | shardMismatch
  | cosignatureInvalid (e : VerifyOutcome)
deriving DecidableEq, Inhabited

/-- The DirectoryService fields that ProcessMicroblockSubmission touches:
protocol phase, the expected consensus id (m_consensusID), the expected DS
block count for the freshness check, the shard rosters (m_shards), the
public-key-to-shard-id registry, the accepted microblock batch keyed by
shard id (m_microBlocks), and an instrumentation counter recording how
often the round-completion trigger RunConsensusOnFinalBlock has fired. -/
structure DSState where
  phase : Phase
  consensusID : Nat
  expectedDSBlockCount : Nat
  shards : List ShardRoster
  publicKeyToShardIdMap : List (PubKey × Nat)
  microBlocks : List (Nat × MicroBlock)
  triggerCount : Nat
deriving DecidableEq, Inhabited

/-- Lookup in the public-key-to-shard-id registry
(m_publicKeyToShardIdMap.find, line 144). -/
def findShardId (m : List (PubKey × Nat)) (k : PubKey) : Option Nat :=
  match m with
  | [] => none
  | (k2, v) :: rest => if k2 = k then some v else findShardId rest k

/-- Whether the batch already holds a summary for the given shard id. -/
def containsShard (batch : List (Nat × MicroBlock)) (sid : Nat) : Bool :=
  batch.any (fun e => e.1 == sid)

/-- Lookup of the accepted summary for a shard id in the batch. -/
def findMicroBlock (batch : List (Nat × MicroBlock)) (sid : Nat) :
    Option MicroBlock :=
  match batch with
  | [] => none
  | (k, mb) :: rest => if k = sid then some mb else findMicroBlock rest sid

/-- Outcomes of inserting into the submission batch. -/
inductive InsertOutcome where
  | inserted
  | duplicateShard
deriving DecidableEq

/-- Modelled from the spec: the batch m_microBlocks is a std set of
MicroBlock whose comparator is outside the repository sample; the spec
(sections 3 and 4.4) keys summaries by shard id and makes insertion of an
already-present key a first-writer-wins no-op, which is also the std set
insert semantics.  The source (line 166) ignores the outcome. -/
def tryInsert (batch : List (Nat × MicroBlock)) (sid : Nat) (mb : MicroBlock) :
    InsertOutcome × List (Nat × MicroBlock) :=
  if containsShard batch sid then (.duplicateShard, batch)
  else (.inserted, (sid, mb) :: batch)

/-- Serializable::GetNumber: big-endian read of the given number of bytes
starting at the given offset. -/
def getNumber (message : Bytes) (offset size : Nat) : Nat :=
  ((message.drop offset).take size).foldl (fun acc b => acc * 256 + b) 0

/-- Modelled from the spec: CheckState(PROCESS_MICROBLOCKSUBMISSION) is
outside the repository sample; per the source comment (line 95) and the
spec gate contract (section 4.3) it passes exactly in the
submission-awaiting phase. -/
def checkState (s : DSState) : Bool :=
  s.phase == .awaitingSubmissions

/-- Modelled from the spec: IsMessageSizeInappropriate is outside the
repository sample; per the spec (section 4.5 step 2) the message is
inappropriate when what lies past the offset is shorter than the required
minimum. -/
def isMessageSizeInappropriate (messageSize offset minLength : Nat) : Bool :=
  messageSize < offset + minLength

/-- Modelled from the spec: CheckWhetherDSBlockIsFresh is outside the
repository sample; per the spec (section 4.5 step 3) the submitted block
number plus one must equal the expected DS block count. -/
def checkWhetherDSBlockIsFresh (s : DSState) (blockNum : Nat) : Bool :=
  blockNum == s.expectedDSBlockCount

/-- Modelled from the spec: RunConsensusOnFinalBlock is outside the
repository sample; per the spec (sections 4.3 and 6) the completion
trigger moves the phase out of awaitingSubmissions into
submissionsComplete.  The embedding additionally counts each firing. -/
def runConsensusOnFinalBlock (s : DSState) : DSState :=
  { s with phase := .submissionsComplete, triggerCount := s.triggerCount + 1 }

/-- External parameters of ProcessMicroblockSubmission that are outside the
repository sample: the minimum encodable size TxBlock::GetMinSize values,
the MicroBlock deserializer (the MicroBlock constructor from bytes), and
the crypto primitives. -/
structure Ext where
  minTxBlockSize : Nat
  decodeMicroBlock : Bytes → Nat → MicroBlock
  crypto : CryptoOracle

/-- Width of the 32-byte DS block number field. -/
def uint256Size : Nat := 32

/-- Width of the 4-byte consensus id and shard id fields. -/
def uint32Size : Nat := 4

/-- DirectoryService::ProcessMicroblockSubmission (lines 88-201): phase
gate, size check, 32-byte DS block number with freshness check, 4-byte
consensus id check, 4-byte shard id, microblock decode, registry lookup
and shard-id cross-check, cosignature verification, then the single
mutating step: insert into the batch and, when the batch size equals the
shard count, fire the round-completion trigger. -/
def ProcessMicroblockSubmission (E : Ext) (s : DSState) (message : Bytes)
    (offset : Nat) : ProcessOutcome × DSState :=
  if ! checkState s then (.wrongPhase, s)
  else if isMessageSizeInappropriate message.length offset
      (uint256Size + uint32Size + uint32Size + E.minTxBlockSize) then
    (.tooShort, s)
  else if ! checkWhetherDSBlockIsFresh s (getNumber message offset uint256Size + 1) then
    (.staleRound, s)
  else if getNumber message (offset + uint256Size) uint32Size ≠ s.consensusID then
    (.roundMismatch, s)
  else
    match findShardId s.publicKeyToShardIdMap
        (E.decodeMicroBlock message
          (offset + uint256Size + uint32Size + uint32Size)).minerPubKey with
    | none => (.unknownProducer, s)
    | some sid =>
      if sid ≠ getNumber message (offset + uint256Size + uint32Size) uint32Size then
        (.shardMismatch, s)
      else
        match VerifyMicroblockCoSignature E.crypto s.shards
            (E.decodeMicroBlock message
              (offset + uint256Size + uint32Size + uint32Size)) sid with
        | .ok =>
          if ((tryInsert s.microBlocks sid
                (E.decodeMicroBlock message
                  (offset + uint256Size + uint32Size + uint32Size))).2).length
              = s.shards.length then
            (.success, runConsensusOnFinalBlock
              { s with microBlocks := (tryInsert s.microBlocks sid
                  (E.decodeMicroBlock message
                    (offset + uint256Size + uint32Size + uint32Size))).2 })
          else
            (.success,
              { s with microBlocks := (tryInsert s.microBlocks sid
                  (E.decodeMicroBlock message
                    (offset + uint256Size + uint32Size + uint32Size))).2 })
        | e => (.cosignatureInvalid e, s)

/-- Folding ProcessMicroblockSubmission over a sequence of inbound
messages, threading the DirectoryService state. -/
def processAll (E : Ext) (inputs : List (Bytes × Nat)) (s : DSState) : DSState :=
  match inputs with
  | [] => s
  | (m, off) :: rest => processAll E rest (ProcessMicroblockSubmission E s m off).2

/-- A crypto oracle under which every aggregation succeeds and every
signature checks out; used to exercise the verifier on concrete inputs. -/
def oracleA : CryptoOracle :=
  { aggregatePubKeys := fun _ => some 0, schnorrVerify := fun _ _ _ => true }

/-- A four-member shard roster. -/
def shardA : ShardRoster := [(0, 0), (1, 1), (2, 2), (3, 3)]

/-- A microblock whose bitmap selects all four members of shardA. -/
def mbA : MicroBlock :=
  { headerSigBitmap := [true, true, true, true], minerPubKey := 0, headerSig := 0,
    serialized := [], timestamp := 0 }

/-- A microblock whose bitmap selects exactly three members of shardA,
the threshold for a roster of four. -/
def mbD : MicroBlock :=
  { headerSigBitmap := [true, true, true, false], minerPubKey := 0, headerSig := 0,
    serialized := [], timestamp := 0 }

/-- A one-member shard roster. -/
def shardB : ShardRoster := [(0, 0)]

/-- A two-member shard roster. -/
def shardC : ShardRoster := [(0, 0), (1, 1)]

/-- A microblock with a two-entry bitmap, longer than shardB. -/
def mbB : MicroBlock :=
  { headerSigBitmap := [true, true], minerPubKey := 0, headerSig := 0,
    serialized := [], timestamp := 0 }

/-- A microblock with a one-entry bitmap, shorter than shardC. -/
def mbC : MicroBlock :=
  { headerSigBitmap := [true], minerPubKey := 0, headerSig := 0,
    serialized := [], timestamp := 0 }

/-- A one-member shard roster distinct from shardA. -/
def shardE : ShardRoster := [(9, 9)]

/-- First of two microblocks agreeing on bitmap, serialization and
signature but differing in miner key and timestamp. -/
def mb1A : MicroBlock :=
  { headerSigBitmap := [true, true, true, false], minerPubKey := 1, headerSig := 5,
    serialized := [1, 2], timestamp := 0 }

/-- Second of two microblocks agreeing on bitmap, serialization and
signature but differing in miner key and timestamp. -/
def mb2A : MicroBlock :=
  { headerSigBitmap := [true, true, true, false], minerPubKey := 2, headerSig := 5,
    serialized := [1, 2], timestamp := 99 }

/-- A 40-byte all-zero message: exactly the fixed header with a trivial
body at offset 40. -/
def msg40 : Bytes := List.replicate 40 0

/-- Trivial external parameters: zero minimum body size, a decoder that
yields a fixed microblock with miner key 7, and oracleA. -/
def E0 : Ext :=
  { minTxBlockSize := 0,
    decodeMicroBlock := fun _ _ =>
      { headerSigBitmap := [], minerPubKey := 7, headerSig := 0,
        serialized := [], timestamp := 0 },
    crypto := oracleA }

/-- A round-start state in the awaiting phase with an empty registry. -/
def sAwait : DSState :=
  { phase := .awaitingSubmissions, consensusID := 0, expectedDSBlockCount := 1,
    shards := [], publicKeyToShardIdMap := [], microBlocks := [], triggerCount := 0 }

/-- Like sAwait but with miner key 7 registered to shard 5. -/
def sReg : DSState :=
  { phase := .awaitingSubmissions, consensusID := 0, expectedDSBlockCount := 1,
    shards := [], publicKeyToShardIdMap := [(7, 5)], microBlocks := [], triggerCount := 0 }

/-- Like sAwait but expecting DS block count 5, so a zero block number is
stale. -/
def sStale : DSState :=
  { phase := .awaitingSubmissions, consensusID := 0, expectedDSBlockCount := 5,
    shards := [], publicKeyToShardIdMap := [], microBlocks := [], triggerCount := 0 }

/-- A state already past the awaiting phase. -/
def sDone : DSState :=
  { phase := .submissionsComplete, consensusID := 0, expectedDSBlockCount := 1,
    shards := [], publicKeyToShardIdMap := [], microBlocks := [], triggerCount := 1 }

/-- Round invariant for the completion trigger: either the round is still
collecting (awaiting phase, no trigger fired, batch strictly below the
shard count unless there are no shards at all), or the trigger has fired
exactly once and the phase has left the collecting state with a full
batch. -/
def RoundInv (s : DSState) : Prop :=
  (s.phase = .awaitingSubmissions ∧ s.triggerCount = 0 ∧
    (s.microBlocks.length < s.shards.length ∨
      (s.shards.length = 0 ∧ s.microBlocks.length = 0)))
  ∨ (s.triggerCount = 1 ∧ s.phase ≠ .awaitingSubmissions ∧
      s.microBlocks.length = s.shards.length ∧ s.shards.length ≠ 0)

theorem selectKeysAux_ok_of_le (shard : ShardRoster) (bitmap : List Bool) :
    ∀ (index : Nat) (keys : List PubKey) (count : Nat),
      index + shard.length ≤ bitmap.length →
      ∃ ks c, selectKeysAux shard bitmap index keys count = .ok (ks, c) := by
  induction shard with
  | nil => intro index keys count _; exact ⟨keys, count, rfl⟩
  | cons kv rest ih =>
    intro index keys count h
    have hlt : index < bitmap.length := by simp at h; omega
    rw [selectKeysAux, List.get?_eq_get hlt]
    cases hb : bitmap.get ⟨index, hlt⟩ with
    | true =>
      simp only [if_pos rfl]
      exact ih (index + 1) (keys ++ [kv.1]) (count + 1) (by simp at h ⊢; omega)
    | false =>
      simp only [Bool.false_eq_true, if_neg]
      exact ih (index + 1) keys count (by simp at h ⊢; omega)

theorem selectKeysAux_error_at (shard : ShardRoster) (bitmap : List Bool) :
    ∀ (index : Nat) (keys : List PubKey) (count : Nat),
      index ≤ bitmap.length → bitmap.length < index + shard.length →
      selectKeysAux shard bitmap index keys count = .error bitmap.length := by
  induction shard with
  | nil => intro index keys count h1 h2; simp at h2; omega
  | cons kv rest ih =>
    intro index keys count h1 h2
    rcases Nat.lt_or_ge index bitmap.length with hlt | hge
    · rw [selectKeysAux, List.get?_eq_get hlt]
      cases hb : bitmap.get ⟨index, hlt⟩ with
      | true =>
        simp only [if_pos rfl]
        exact ih (index + 1) (keys ++ [kv.1]) (count + 1) hlt (by simp at h2 ⊢; omega)
      | false =>
        simp only [Bool.false_eq_true, if_neg]
        exact ih (index + 1) keys count hlt (by simp at h2 ⊢; omega)
    · have heq : index = bitmap.length := le_antisymm h1 hge
      rw [selectKeysAux, List.get?_len_le hge, heq]

theorem selectKeysAux_count_eq (shard : ShardRoster) (bitmap : List Bool) :
    ∀ (index : Nat) (keys : List PubKey) (count : Nat),
      index + shard.length = bitmap.length →
      ∃ ks, selectKeysAux shard bitmap index keys count
        = .ok (ks, count + (bitmap.drop index).count true) := by
  induction shard with
  | nil =>
    intro index keys count h
    simp at h
    rw [selectKeysAux, List.drop_eq_nil_of_le (le_of_eq h.symm)]
    exact ⟨keys, by simp⟩
  | cons kv rest ih =>
    intro index keys count h
    have hlt : index < bitmap.length := by simp at h; omega
    have hdrop : bitmap.drop index = bitmap.get ⟨index, hlt⟩ :: bitmap.drop (index + 1) :=
      List.drop_eq_getElem_cons hlt
    rw [selectKeysAux, List.get?_eq_get hlt]
    cases hb : bitmap.get ⟨index, hlt⟩ with
    | true =>
      simp only [if_pos rfl]
      obtain ⟨ks, hks⟩ := ih (index + 1) (keys ++ [kv.1]) (count + 1) (by simp at h ⊢; omega)
      refine ⟨ks, ?_⟩
      rw [hks, hdrop, hb]
      simp [List.count_cons]
      try omega
    | false =>
      simp only [Bool.false_eq_true, if_neg]
      obtain ⟨ks, hks⟩ := ih (index + 1) keys count (by simp at h ⊢; omega)
      refine ⟨ks, ?_⟩
      rw [hks, hdrop, hb]
      simp [List.count_cons]
      try omega

theorem selectKeys_ok_of_le (shard : ShardRoster) (bitmap : List Bool)
    (h : shard.length ≤ bitmap.length) :
    ∃ ks c, selectKeys shard bitmap = .ok (ks, c) :=
  selectKeysAux_ok_of_le shard bitmap 0 [] 0 (by omega)

theorem selectKeys_error (shard : ShardRoster) (bitmap : List Bool)
    (h : bitmap.length < shard.length) :
    selectKeys shard bitmap = .error bitmap.length :=
  selectKeysAux_error_at shard bitmap 0 [] 0 (Nat.zero_le _) (by omega)

theorem selectKeys_count (shard : ShardRoster) (bitmap : List Bool)
    (h : bitmap.length = shard.length) :
    ∃ ks, selectKeys shard bitmap = .ok (ks, bitmap.count true) := by
  obtain ⟨ks, hks⟩ := selectKeysAux_count_eq shard bitmap 0 [] 0 (by omega)
  exact ⟨ks, by simpa using hks⟩

theorem verify_after_selection (C : CryptoOracle) (shards : List ShardRoster)
    (mb : MicroBlock) (sid : Nat) (shard : ShardRoster) (ks : List PubKey) (c : Nat)
    (hs : shards.get? sid = some shard)
    (hsk : selectKeys shard mb.headerSigBitmap = .ok (ks, c)) :
    VerifyMicroblockCoSignature C shards mb sid =
      (if c ≠ NumForConsensus mb.headerSigBitmap.length then .insufficientSigners
       else match C.aggregatePubKeys ks with
         | none => .aggregationFailed
         | some k =>
           if C.schnorrVerify mb.serialized mb.headerSig k then .ok
           else .signatureInvalid) := by
  simp only [VerifyMicroblockCoSignature, hs, hsk]

theorem verify_ok_sid_lt (C : CryptoOracle) (shards : List ShardRoster)
    (mb : MicroBlock) (sid : Nat)
    (h : VerifyMicroblockCoSignature C shards mb sid = .ok) :
    sid < shards.length := by
  unfold VerifyMicroblockCoSignature at h
  cases hg : shards.get? sid with
  | none => rw [hg] at h; simp at h
  | some shard =>
    by_contra hge
    rw [List.get?_len_le (Nat.le_of_not_lt hge)] at hg
    exact Option.noConfusion hg

theorem tryInsert_length (batch : List (Nat × MicroBlock)) (sid : Nat)
    (mb : MicroBlock) :
    ((tryInsert batch sid mb).2).length = batch.length ∨
    ((tryInsert batch sid mb).2).length = batch.length + 1 := by
  unfold tryInsert
  split
  · exact Or.inl rfl
  · exact Or.inr rfl

theorem process_wrongPhase_helper (E : Ext) (s : DSState) (message : Bytes)
    (offset : Nat) (h : s.phase ≠ .awaitingSubmissions) :
    ProcessMicroblockSubmission E s message offset = (.wrongPhase, s) := by
  have hc : checkState s = false := by
    simp [checkState]
    exact h
  simp [ProcessMicroblockSubmission, hc]

theorem process_fail_helper (E : Ext) (s : DSState) (message : Bytes) (offset : Nat) :
    ∀ r s2, ProcessMicroblockSubmission E s message offset = (r, s2) →
      r ≠ .success → s2 = s := by
  intro r s2 hps hr
  unfold ProcessMicroblockSubmission at hps
  split at hps
  · injection hps with h1 h2; exact h2.symm
  split at hps
  · injection hps with h1 h2; exact h2.symm
  split at hps
  · injection hps with h1 h2; exact h2.symm
  split at hps
  · injection hps with h1 h2; exact h2.symm
  split at hps
  · injection hps with h1 h2; exact h2.symm
  split at hps
  · injection hps with h1 h2; exact h2.symm
  split at hps
  · split at hps
    · injection hps with h1 h2; exact absurd h1.symm hr
    · injection hps with h1 h2; exact absurd h1.symm hr
  · injection hps with h1 h2; exact h2.symm

theorem process_shards_eq (E : Ext) (s : DSState) (message : Bytes) (offset : Nat) :
    ((ProcessMicroblockSubmission E s message offset).2).shards = s.shards := by
  unfold ProcessMicroblockSubmission runConsensusOnFinalBlock
  repeat' split
  all_goals simp

theorem roundInv_step (E : Ext) (s : DSState) (message : Bytes) (offset : Nat)
    (h : RoundInv s) :
    RoundInv ((ProcessMicroblockSubmission E s message offset).2) := by
  rcases h with ⟨hph, htc, hlen⟩ | hdone
  · unfold ProcessMicroblockSubmission
    split
    · exact Or.inl ⟨hph, htc, hlen⟩
    split
    · exact Or.inl ⟨hph, htc, hlen⟩
    split
    · exact Or.inl ⟨hph, htc, hlen⟩
    split
    · exact Or.inl ⟨hph, htc, hlen⟩
    split
    · exact Or.inl ⟨hph, htc, hlen⟩
    rename_i sid hfind
    split
    · exact Or.inl ⟨hph, htc, hlen⟩
    split
    · rename_i hver
      have hslt := verify_ok_sid_lt E.crypto s.shards
        (E.decodeMicroBlock message (offset + uint256Size + uint32Size + uint32Size))
        sid hver
      have hlen2 : s.microBlocks.length < s.shards.length := by
        rcases hlen with h1 | ⟨h1, h2⟩
        · exact h1
        · omega
      split
      · rename_i hfull
        refine Or.inr ⟨?_, ?_, ?_, ?_⟩
        · simp [runConsensusOnFinalBlock, htc]
        · simp [runConsensusOnFinalBlock]
        · simpa [runConsensusOnFinalBlock] using hfull
        · simp only [runConsensusOnFinalBlock]
          omega
      · rename_i hnotfull
        refine Or.inl ⟨by simpa using hph, by simpa using htc, ?_⟩
        left
        rcases tryInsert_length s.microBlocks sid
          (E.decodeMicroBlock message
            (offset + uint256Size + uint32Size + uint32Size)) with hl | hl
        · simp only [hl]
          omega
        · simp only [hl] at hnotfull ⊢
          omega
    · exact Or.inl ⟨hph, htc, hlen⟩
  · rw [process_wrongPhase_helper E s message offset hdone.2.1]
    exact Or.inr hdone

theorem roundInv_processAll (E : Ext) (inputs : List (Bytes × Nat)) :
    ∀ s : DSState, RoundInv s → RoundInv (processAll E inputs s) := by
  induction inputs with
  | nil => intro s h; exact h
  | cons p rest ih =>
    intro s h
    exact ih (ProcessMicroblockSubmission E s p.1 p.2).2
      (roundInv_step E s p.1 p.2 h)

theorem processAll_shards (E : Ext) (inputs : List (Bytes × Nat)) :
    ∀ s : DSState, (processAll E inputs s).shards = s.shards := by
  induction inputs with
  | nil => intro s; rfl
  | cons p rest ih =>
    intro s
    rw [processAll]
    rw [ih (ProcessMicroblockSubmission E s p.1 p.2).2,
      process_shards_eq E s p.1 p.2]

end Zilliqa

namespace Zilliqa

/-- C1: starting a round in the awaiting phase with an empty batch and the
trigger not yet fired, any sequence of ProcessMicroblockSubmission calls
fires the round-completion trigger RunConsensusOnFinalBlock at most once,
and it has fired exactly once precisely when the batch has reached the
shard count of a nonempty shard roster. -/
theorem round_completion_trigger_once (E : Ext) (inputs : List (Bytes × Nat))
    (s0 : DSState)
    (hphase : s0.phase = .awaitingSubmissions)
    (hempty : s0.microBlocks = [])
    (htc : s0.triggerCount = 0) :
    (processAll E inputs s0).triggerCount ≤ 1 ∧
    ((processAll E inputs s0).triggerCount = 1 ↔
      ((processAll E inputs s0).microBlocks.length = s0.shards.length ∧
        s0.shards.length ≠ 0)) := by
  have hinv0 : RoundInv s0 := by
    refine Or.inl ⟨hphase, htc, ?_⟩
    rw [hempty]
    rcases Nat.eq_zero_or_pos s0.shards.length with h | h
    · exact Or.inr ⟨h, rfl⟩
    · exact Or.inl (by simpa using h)
  have hinv := roundInv_processAll E inputs s0 hinv0
  have hsh := processAll_shards E inputs s0
  rcases hinv with ⟨hph, htc1, hlen⟩ | ⟨htc1, hph, hlen, hne⟩
  · rw [hsh] at hlen
    constructor
    · omega
    · constructor
      · intro hx
        omega
      · rintro ⟨h1, h2⟩
        rcases hlen with h3 | ⟨h3, h4⟩ <;> omega
  · rw [hsh] at hlen hne
    constructor
    · omega
    · exact ⟨fun _ => ⟨hlen, hne⟩, fun _ => htc1⟩

/-- C1 witness: one inbound message processed from a fresh round start. -/
theorem round_completion_trigger_once_app :
    (processAll E0 [(msg40, 0)] sAwait).triggerCount ≤ 1 ∧
    ((processAll E0 [(msg40, 0)] sAwait).triggerCount = 1 ↔
      ((processAll E0 [(msg40, 0)] sAwait).microBlocks.length
          = sAwait.shards.length ∧
        sAwait.shards.length ≠ 0)) :=
  round_completion_trigger_once E0 [(msg40, 0)] sAwait rfl rfl rfl

/-- C2 counterexample: on the four-member roster shardA with an all-true
bitmap, the selected count is four, at least the threshold three, and the
crypto oracle accepts everything, yet the verifier rejects with
insufficientSigners, because the source (line 62) demands the count be
EQUAL to the threshold, not at-or-above it. -/
theorem cosignature_threshold_cex :
    shardA.length = 4 ∧
    mbA.headerSigBitmap.count true = 4 ∧
    NumForConsensus 4 = 3 ∧
    VerifyMicroblockCoSignature oracleA [shardA] mbA 0 = .insufficientSigners := by
  decide

/-- C2 amended: for a bitmap of the roster length, the verifier fails at
the signer-count check exactly when the count of selected signers differs
from the threshold floor(2n/3)+1 of the roster size; when the count equals
the threshold it proceeds to key aggregation and signature verification,
and with a valid aggregate signature it accepts. -/
theorem cosignature_threshold_exact (C : CryptoOracle) (shards : List ShardRoster)
    (mb : MicroBlock) (sid : Nat) (shard : ShardRoster)
    (hs : shards.get? sid = some shard)
    (hlen : mb.headerSigBitmap.length = shard.length) :
    (VerifyMicroblockCoSignature C shards mb sid = .insufficientSigners ↔
      mb.headerSigBitmap.count true ≠ NumForConsensus shard.length) ∧
    (mb.headerSigBitmap.count true = NumForConsensus shard.length →
      VerifyMicroblockCoSignature C shards mb sid = .ok ∨
      VerifyMicroblockCoSignature C shards mb sid = .aggregationFailed ∨
      VerifyMicroblockCoSignature C shards mb sid = .signatureInvalid) ∧
    (mb.headerSigBitmap.count true = NumForConsensus shard.length →
      (∀ ks, (C.aggregatePubKeys ks).isSome) →
      (∀ m g k, C.schnorrVerify m g k = true) →
      VerifyMicroblockCoSignature C shards mb sid = .ok) := by
  obtain ⟨ks, hsk⟩ := selectKeys_count shard mb.headerSigBitmap hlen
  have hred := verify_after_selection C shards mb sid shard ks
    (mb.headerSigBitmap.count true) hs hsk
  rw [hlen] at hred
  refine ⟨?_, ?_, ?_⟩
  · rw [hred]
    by_cases hc : mb.headerSigBitmap.count true = NumForConsensus shard.length
    · rw [if_neg (by simpa using hc)]
      rcases hA : C.aggregatePubKeys ks with _ | k
      · simp [hA, hc]
      · simp only [hA]
        split <;> simp [hc]
    · rw [if_pos hc]
      simp [hc]
  · intro hcount
    rw [hred, if_neg (by simpa using hcount)]
    rcases hA : C.aggregatePubKeys ks with _ | k
    · simp [hA]
    · simp only [hA]
      split <;> simp
  · intro hcount hagg hver
    rw [hred, if_neg (by simpa using hcount)]
    rcases hA : C.aggregatePubKeys ks with _ | k
    · have hx := hagg ks
      rw [hA] at hx
      simp at hx
    · simp only [hA]
      simp [hver]

/-- C2 amended witness: exactly three of four bits set meets the threshold
and is accepted under a valid aggregate signature. -/
theorem cosignature_threshold_exact_app :
    VerifyMicroblockCoSignature oracleA [shardA] mbD 0 = .ok :=
  (cosignature_threshold_exact oracleA [shardA] mbD 0 shardA rfl (by decide)).2.2
    (by decide) (fun ks => rfl) (fun m g k => rfl)

/-- C3: inserting a summary for a shard id not yet in the batch succeeds,
a second insertion for the same shard id reports duplicateShard, leaves
the batch unchanged with the first summary still in place, and the batch
grows by exactly one entry over the two insertions. -/
theorem tryInsert_first_writer_wins (batch : List (Nat × MicroBlock)) (sid : Nat)
    (mb1 mb2 : MicroBlock) (h : containsShard batch sid = false) :
    (tryInsert batch sid mb1).1 = .inserted ∧
    (tryInsert (tryInsert batch sid mb1).2 sid mb2).1 = .duplicateShard ∧
    (tryInsert (tryInsert batch sid mb1).2 sid mb2).2 = (tryInsert batch sid mb1).2 ∧
    findMicroBlock (tryInsert (tryInsert batch sid mb1).2 sid mb2).2 sid = some mb1 ∧
    ((tryInsert (tryInsert batch sid mb1).2 sid mb2).2).length = batch.length + 1 := by
  have h2 : containsShard ((sid, mb1) :: batch) sid = true := by
    simp [containsShard]
  simp [tryInsert, h, h2, findMicroBlock]

/-- C3 witness: two distinct summaries for shard 0 into an empty batch. -/
theorem tryInsert_first_writer_wins_app :
    (tryInsert [] 0 mbA).1 = .inserted ∧
    (tryInsert (tryInsert [] 0 mbA).2 0 mbD).1 = .duplicateShard ∧
    (tryInsert (tryInsert [] 0 mbA).2 0 mbD).2 = (tryInsert [] 0 mbA).2 ∧
    findMicroBlock (tryInsert (tryInsert [] 0 mbA).2 0 mbD).2 0 = some mbA ∧
    ((tryInsert (tryInsert [] 0 mbA).2 0 mbD).2).length
      = ([] : List (Nat × MicroBlock)).length + 1 :=
  tryInsert_first_writer_wins [] 0 mbA mbD (by decide)

/-- C4 counterexample: the verifier performs no bitmap-length precheck.
A two-entry bitmap against the one-member roster shardB is not rejected
for its length mismatch but reaches the signer-count check, and a
one-entry bitmap against the two-member roster shardC fails inside the
selection loop with an out-of-range lookup at index one, not with any
dedicated malformed-bitmap result before selection. -/
theorem verify_bitmap_length_cex :
    mbB.headerSigBitmap.length ≠ shardB.length ∧
    VerifyMicroblockCoSignature oracleA [shardB] mbB 0 = .insufficientSigners ∧
    mbC.headerSigBitmap.length ≠ shardC.length ∧
    VerifyMicroblockCoSignature oracleA [shardC] mbC 0 = .bitmapOutOfRange 1 := by
  decide

/-- C4 amended: the verifier has no bitmap-length precheck.  A bitmap at
least as long as the roster never produces an out-of-range failure, and a
bitmap shorter than the roster makes the bounds-checked bitmap lookup fail
during signer selection, at the position equal to the bitmap length. -/
theorem verify_no_bitmap_length_precheck (C : CryptoOracle) (shards : List ShardRoster)
    (mb : MicroBlock) (sid : Nat) (shard : ShardRoster)
    (hs : shards.get? sid = some shard) :
    (shard.length ≤ mb.headerSigBitmap.length →
      ∀ i, VerifyMicroblockCoSignature C shards mb sid ≠ .bitmapOutOfRange i) ∧
    (mb.headerSigBitmap.length < shard.length →
      VerifyMicroblockCoSignature C shards mb sid
        = .bitmapOutOfRange mb.headerSigBitmap.length) := by
  constructor
  · intro hle i
    obtain ⟨ks, c, hsk⟩ := selectKeys_ok_of_le shard mb.headerSigBitmap hle
    rw [verify_after_selection C shards mb sid shard ks c hs hsk]
    split
    · simp
    · rcases hA : C.aggregatePubKeys ks with _ | k
      · simp [hA]
      · simp only [hA]
        split <;> simp
  · intro hlt
    simp only [VerifyMicroblockCoSignature, hs,
      selectKeys_error shard mb.headerSigBitmap hlt]

/-- C4 amended witness: both halves applied to concrete rosters. -/
theorem verify_no_bitmap_length_precheck_app :
    (∀ i, VerifyMicroblockCoSignature oracleA [shardB] mbB 0 ≠ .bitmapOutOfRange i) ∧
    VerifyMicroblockCoSignature oracleA [shardC] mbC 0 = .bitmapOutOfRange 1 :=
  ⟨(verify_no_bitmap_length_precheck oracleA [shardB] mbB 0 shardB rfl).1 (by decide),
   (verify_no_bitmap_length_precheck oracleA [shardC] mbC 0 shardC rfl).2 (by decide)⟩

/-- C5: a failing ProcessMicroblockSubmission call leaves the state, and in
particular the submission batch, unchanged: a wrong-phase call is rejected
as wrongPhase with the state intact, and every non-success outcome returns
the state passed in, so only a fully validated summary mutates the batch. -/
theorem process_failure_no_mutation (E : Ext) (s : DSState) (message : Bytes)
    (offset : Nat) :
    (s.phase ≠ .awaitingSubmissions →
      ProcessMicroblockSubmission E s message offset = (.wrongPhase, s)) ∧
    (∀ r s2, ProcessMicroblockSubmission E s message offset = (r, s2) →
      r ≠ .success → s2 = s) :=
  ⟨fun h => process_wrongPhase_helper E s message offset h,
   process_fail_helper E s message offset⟩

/-- C5 witness: a submission processed after the phase has moved on. -/
theorem process_failure_no_mutation_app :
    ProcessMicroblockSubmission E0 sDone msg40 0 = (.wrongPhase, sDone) :=
  (process_failure_no_mutation E0 sDone msg40 0).1 (by decide)

/-- C6: after the phase, size, freshness and round checks, a producer key
absent from the registry fails as unknownProducer, and a registry entry
disagreeing with the decoded shard id fails as shardMismatch; both leave
the state unchanged, and since the crypto oracle inside E is arbitrary and
absent from the conclusion, signature verification is never invoked. -/
theorem process_identity_checks (E : Ext) (s : DSState) (message : Bytes) (offset : Nat)
    (hphase : s.phase = .awaitingSubmissions)
    (hsize : isMessageSizeInappropriate message.length offset
      (uint256Size + uint32Size + uint32Size + E.minTxBlockSize) = false)
    (hfresh : checkWhetherDSBlockIsFresh s
      (getNumber message offset uint256Size + 1) = true)
    (hcid : getNumber message (offset + uint256Size) uint32Size = s.consensusID) :
    (findShardId s.publicKeyToShardIdMap
        (E.decodeMicroBlock message
          (offset + uint256Size + uint32Size + uint32Size)).minerPubKey = none →
      ProcessMicroblockSubmission E s message offset = (.unknownProducer, s)) ∧
    (∀ sid, findShardId s.publicKeyToShardIdMap
        (E.decodeMicroBlock message
          (offset + uint256Size + uint32Size + uint32Size)).minerPubKey = some sid →
      sid ≠ getNumber message (offset + uint256Size + uint32Size) uint32Size →
      ProcessMicroblockSubmission E s message offset = (.shardMismatch, s)) := by
  have h1 : checkState s = true := by simp [checkState, hphase]
  constructor
  · intro hnone
    simp [ProcessMicroblockSubmission, h1, hsize, hfresh, hcid, hnone]
  · intro sid hsome hne
    simp [ProcessMicroblockSubmission, h1, hsize, hfresh, hcid, hsome, hne]

/-- C6 witness: an unregistered producer, then one registered to a
different shard than the decoded shard id. -/
theorem process_identity_checks_app :
    ProcessMicroblockSubmission E0 sAwait msg40 0 = (.unknownProducer, sAwait) ∧
    ProcessMicroblockSubmission E0 sReg msg40 0 = (.shardMismatch, sReg) :=
  ⟨(process_identity_checks E0 sAwait msg40 0 rfl (by decide) (by decide)
      (by decide)).1 (by decide),
   (process_identity_checks E0 sReg msg40 0 rfl (by decide) (by decide)
      (by decide)).2 5 (by decide) (by decide)⟩

/-- C7: a message whose bytes past the offset are fewer than the 32-byte
epoch number plus 4-byte round id plus 4-byte shard id plus the minimum
encodable block size is rejected as tooShort with the state unchanged;
since the decoder inside E is arbitrary and absent from the conclusion,
no later field is decoded. -/
theorem process_too_short (E : Ext) (s : DSState) (message : Bytes) (offset : Nat)
    (hphase : s.phase = .awaitingSubmissions)
    (hsize : message.length <
      offset + (uint256Size + uint32Size + uint32Size + E.minTxBlockSize)) :
    ProcessMicroblockSubmission E s message offset = (.tooShort, s) := by
  have h1 : checkState s = true := by simp [checkState, hphase]
  have h2 : isMessageSizeInappropriate message.length offset
      (uint256Size + uint32Size + uint32Size + E.minTxBlockSize) = true := by
    simp only [isMessageSizeInappropriate, decide_eq_true_eq]
    exact hsize
  simp [ProcessMicroblockSubmission, h1, h2]

/-- C7 witness: the empty message is shorter than the fixed header. -/
theorem process_too_short_app :
    ProcessMicroblockSubmission E0 sAwait [] 0 = (.tooShort, sAwait) :=
  process_too_short E0 sAwait [] 0 rfl (by decide)

/-- C8: once the phase and size checks pass, the decoded 32-byte epoch
number plus one is compared against the expected DS block count; on a
mismatch the call fails as staleRound with the state unchanged, whatever
the round id and shard id bytes hold, so neither is examined first. -/
theorem process_stale_round (E : Ext) (s : DSState) (message : Bytes) (offset : Nat)
    (hphase : s.phase = .awaitingSubmissions)
    (hsize : isMessageSizeInappropriate message.length offset
      (uint256Size + uint32Size + uint32Size + E.minTxBlockSize) = false)
    (hstale : getNumber message offset uint256Size + 1 ≠ s.expectedDSBlockCount) :
    ProcessMicroblockSubmission E s message offset = (.staleRound, s) := by
  have h1 : checkState s = true := by simp [checkState, hphase]
  have h3 : checkWhetherDSBlockIsFresh s
      (getNumber message offset uint256Size + 1) = false := by
    simp [checkWhetherDSBlockIsFresh]
    exact hstale
  simp [ProcessMicroblockSubmission, h1, hsize, h3]

/-- C8 witness: block number zero against an expected count of five. -/
theorem process_stale_round_app :
    ProcessMicroblockSubmission E0 sStale msg40 0 = (.staleRound, sStale) :=
  process_stale_round E0 sStale msg40 0 rfl (by decide) (by decide)

/-- C9: the verifier is deterministic in its inputs: two invocations
agreeing on the roster looked up for the shard id, the participation
bitmap, the serialized message and the aggregate signature yield the same
outcome, whatever else differs in the state or the block; the embedding
returns only an outcome and mutates nothing. -/
theorem verify_deterministic (C : CryptoOracle) (shards1 shards2 : List ShardRoster)
    (sid : Nat) (mb1 mb2 : MicroBlock)
    (hroster : shards1.get? sid = shards2.get? sid)
    (hbm : mb1.headerSigBitmap = mb2.headerSigBitmap)
    (hmsg : mb1.serialized = mb2.serialized)
    (hsig : mb1.headerSig = mb2.headerSig) :
    VerifyMicroblockCoSignature C shards1 mb1 sid =
      VerifyMicroblockCoSignature C shards2 mb2 sid := by
  unfold VerifyMicroblockCoSignature
  rw [hroster, hbm, hmsg, hsig]

/-- C9 witness: same roster at shard id zero inside two different shard
lists, and two blocks differing in miner key and timestamp only. -/
theorem verify_deterministic_app :
    VerifyMicroblockCoSignature oracleA [shardA] mb1A 0 =
      VerifyMicroblockCoSignature oracleA [shardA, shardE] mb2A 0 :=
  verify_deterministic oracleA [shardA] [shardA, shardE] 0 mb1A mb2A rfl rfl rfl rfl

/-- C10: in the signer-selection loop the bitmap is read at each roster
position with a bounds-checked lookup; when the bitmap is at least as long
as the roster every lookup is in bounds and selection returns normally,
and when the bitmap is shorter the out-of-range branch is reached exactly
at the position equal to the bitmap length. -/
theorem selection_loop_bitmap_bounds (shard : ShardRoster) (bitmap : List Bool) :
    (shard.length ≤ bitmap.length →
      ∃ keys count, selectKeys shard bitmap = Except.ok (keys, count)) ∧
    (bitmap.length < shard.length →
      selectKeys shard bitmap = Except.error bitmap.length) :=
  ⟨fun h => selectKeys_ok_of_le shard bitmap h, fun h => selectKeys_error shard bitmap h⟩

/-- C10 witness: both halves applied to concrete rosters and bitmaps. -/
theorem selection_loop_bitmap_bounds_app :
    (∃ keys count, selectKeys [(0, 0)] [true] = Except.ok (keys, count)) ∧
    selectKeys [(0, 0), (1, 1)] [true] = Except.error 1 :=
  ⟨(selection_loop_bitmap_bounds [(0, 0)] [true]).1 (by decide),
   (selection_loop_bitmap_bounds [(0, 0), (1, 1)] [true]).2 (by decide)⟩

end Zilliqa
